import Mathlib

/-!
Shallow embedding of the capture/replay core of the adobe/blackhole
repository, together with theorems settling the frozen claims about it.

Conventions used throughout:
* byte strings are `List Nat` (each entry a byte value);
* Go errors are explicit sum types; `errors.Wrap` from github.com/pkg/errors
  is modelled by a `wrapped` constructor, and its documented behaviour of
  returning nil when the wrapped error is nil is modelled explicitly;
* fallible operations return their effects (files removed, finalizer calls)
  in explicit result records so that the claims can talk about them.
-/

namespace Blackhole

/-- Little-endian encoding of a natural number into `w` bytes. This mirrors
`binary.LittleEndian.PutUint64` from `SaveRequest` (lib/request/request.go):
the value is reduced modulo `2 ^ (8 * w)`. -/
def leBytes : Nat → Nat → List Nat
  | 0, _ => []
  | w + 1, n => n % 256 :: leBytes w (n / 256)

/-- Little-endian decoding of a byte list, mirroring
`binary.LittleEndian.Uint64` as used by `GetNextRequest`. -/
def leDecode : List Nat → Nat
  | [] => 0
  | b :: bs => b + 256 * leDecode bs

theorem leBytes_length (w n : Nat) : (leBytes w n).length = w := by
  induction w generalizing n with
  | zero => rfl
  | succ w ih => simp [leBytes, ih]

theorem leDecode_leBytes (w n : Nat) : leDecode (leBytes w n) = n % 256 ^ w := by
  induction w generalizing n with
  | zero => simp [leBytes, leDecode, Nat.mod_one]
  | succ w ih =>
      rw [leBytes, leDecode, ih, pow_succ', Nat.mod_mul]

theorem leDecode_leBytes8 (n : Nat) (h : n < 2 ^ 64) :
    leDecode (leBytes 8 n) = n := by
  rw [leDecode_leBytes]
  have h256 : (256 : Nat) ^ 8 = 2 ^ 64 := by norm_num
  rw [h256, Nat.mod_eq_of_lt h]

/-- Record carried by one archive frame: the five byte-string fields of a
captured HTTP request (see `CreateRequest` in the request package). -/
structure FbrRequest where
  rid : List Nat
  method : List Nat
  uri : List Nat
  headers : List Nat
  body : List Nat
deriving DecidableEq

/-- Modelled from the spec: one field of the structured record body. The
spec treats the flatbuffers layout (lib/fbr, not under src/) as an opaque
serializer contract whose fields round-trip byte-equal, so a field is
modelled as an 8-byte little-endian length followed by the raw bytes. -/
def encodeField (f : List Nat) : List Nat := leBytes 8 f.length ++ f

/-- Modelled from the spec: the inverse of `encodeField`, returning the
field bytes and the remaining input. -/
def decodeField (bs : List Nat) : Option (List Nat × List Nat) :=
  if 8 ≤ bs.length then
    let L := leDecode (bs.take 8)
    if L ≤ (bs.drop 8).length then some ((bs.drop 8).take L, (bs.drop 8).drop L)
    else none
  else none

/-- Modelled from the spec: the structured encoding of a captured request
produced by `CreateRequest` (lib/fbr serializer treated as an opaque
contract); the five fields are encoded in order. -/
def encodeRequest (r : FbrRequest) : List Nat :=
  encodeField r.rid ++ encodeField r.method ++ encodeField r.uri ++
    encodeField r.headers ++ encodeField r.body

/-- Modelled from the spec: the typed view `UnmarshalledRequest.Request()`
exposes over the payload bytes (fbr.GetRootAsRequest), as the inverse of
`encodeRequest`. -/
def decodeRequest (bs : List Nat) : Option FbrRequest :=
  match decodeField bs with
  | none => none
  | some (i, bs1) =>
    match decodeField bs1 with
    | none => none
    | some (m, bs2) =>
      match decodeField bs2 with
      | none => none
      | some (u, bs3) =>
        match decodeField bs3 with
        | none => none
        | some (h, bs4) =>
          match decodeField bs4 with
          | none => none
          | some (b, _) => some ⟨i, m, u, h, b⟩

theorem decodeField_encodeField (f rest : List Nat) (h : f.length < 2 ^ 64) :
    decodeField (encodeField f ++ rest) = some (f, rest) := by
  have hlen : (leBytes 8 f.length).length = 8 := leBytes_length 8 f.length
  unfold decodeField encodeField
  rw [List.append_assoc]
  rw [List.take_left' hlen, List.drop_left' hlen]
  rw [leDecode_leBytes8 f.length h]
  simp
  omega

theorem decodeField_encodeField_nil (f : List Nat) (h : f.length < 2 ^ 64) :
    decodeField (encodeField f) = some (f, []) := by
  have := decodeField_encodeField f [] h
  simpa using this

theorem decodeRequest_encodeRequest (r : FbrRequest)
    (h1 : r.rid.length < 2 ^ 64) (h2 : r.method.length < 2 ^ 64)
    (h3 : r.uri.length < 2 ^ 64) (h4 : r.headers.length < 2 ^ 64)
    (h5 : r.body.length < 2 ^ 64) :
    decodeRequest (encodeRequest r) = some r := by
  simp only [decodeRequest, encodeRequest, List.append_assoc,
    decodeField_encodeField, decodeField_encodeField_nil, h1, h2, h3, h4, h5]

/-- State of the underlying reader at a given retry instant: either the
bytes currently present in the file, or a reader failing with a non-EOF
error code. -/
inductive FileView where
  | avail (bytes : List Nat)
  | broken (code : Nat)

/-- Reader environment for the tail-follow loop: the file contents seen at
each one-second retry instant (instant 0 is the first attempt; the instant
advances only across a sleep, as in the source loop). -/
def ContentAt : Type := Nat → FileView

/-- Errors flowing through the reader path. `eof` is io.EOF,
`unexpectedEOF` is io.ErrUnexpectedEOF, `other` is any other reader error,
and `wrapped` marks a pass through errors.Wrap / errors.Wrapf. -/
inductive RErr where
  | eof
  | unexpectedEOF
  | other (code : Nat)
  | wrapped (e : RErr)
deriving DecidableEq

/-- Semantics of the stdlib primitive io.ReadFull over the reader model:
at instant `t`, reading `n` bytes starting at file offset `pos`. Per the
stdlib contract it returns a nil error exactly when all `n` bytes were
read, io.EOF when no byte could be read, and io.ErrUnexpectedEOF on a
short read; a broken reader yields its non-EOF error. -/
def ioReadFull (content : ContentAt) (t pos n : Nat) : Nat × Option RErr :=
  match content t with
  | .broken c => (0, some (.other c))
  | .avail bytes =>
      let av := bytes.length - pos
      if n ≤ av then (n, none)
      else if av = 0 then (0, some .eof)
      else (av, some .unexpectedEOF)

/-- Result of the request package ReadFull: bytes read, error returned,
and how many one-second sleeps were performed. -/
structure RFResult where
  bytesRead : Nat
  rerr : Option RErr
  sleeps : Nat
deriving DecidableEq

/-- Loop body of ReadFull (lib/request/request.go). `br` is bytesRead so
far, `s` the sleeps performed so far, and `tl` the retries left
(`tl = 600 - tries`, the source retries while `tries < 600`). On io.EOF or
io.ErrUnexpectedEOF with `waitForData` and retries left it sleeps one
second and retries; otherwise that condition is returned as-is. Any other
read error is returned immediately, wrapped. -/
def readFullAux (content : ContentAt) (bufLen : Nat) (w : Bool) (pos : Nat)
    (t br s tl : Nat) : RFResult :=
  if br < bufLen then
    match ioReadFull content t (pos + br) (bufLen - br) with
    | (n, none) => ⟨br + n, none, s⟩
    | (n, some RErr.eof) =>
        if h : 0 < tl ∧ w = true then
          readFullAux content bufLen w pos (t + 1) (br + n) (s + 1) (tl - 1)
        else ⟨br + n, some RErr.eof, s⟩
    | (n, some RErr.unexpectedEOF) =>
        if h : 0 < tl ∧ w = true then
          readFullAux content bufLen w pos (t + 1) (br + n) (s + 1) (tl - 1)
        else ⟨br + n, some RErr.unexpectedEOF, s⟩
    | (n, some e) => ⟨br + n, some (RErr.wrapped e), s⟩
  else ⟨br, none, s⟩
termination_by tl
decreasing_by all_goals omega

/-- ReadFull (lib/request/request.go): fill a buffer of `bufLen` bytes
starting at offset `pos`, optionally waiting for data with up to 600
one-second retries. -/
def ReadFull (content : ContentAt) (bufLen : Nat) (w : Bool) (pos : Nat) : RFResult :=
  readFullAux content bufLen w pos 0 0 0 600

/-- Reader over a fully written, static archive file: the same bytes are
visible at every retry instant. -/
def staticContent (data : List Nat) : ContentAt := fun _ => .avail data

theorem ioReadFull_avail_enough (content : ContentAt) (data : List Nat) (t p n : Nat)
    (hc : content t = FileView.avail data) (h : p + n ≤ data.length) :
    ioReadFull content t p n = (n, none) := by
  have hle : n ≤ data.length - p := by omega
  simp [ioReadFull, hc, hle]

theorem ioReadFull_avail_empty (content : ContentAt) (data : List Nat) (t p n : Nat)
    (hc : content t = FileView.avail data) (hle : data.length ≤ p) (hn : 0 < n) :
    ioReadFull content t p n = (0, some RErr.eof) := by
  have hav : data.length - p = 0 := by omega
  have hno : ¬ (n ≤ data.length - p) := by omega
  simp [ioReadFull, hc, hav, hno]
  omega

theorem ioReadFull_avail_short (content : ContentAt) (data : List Nat) (t p n : Nat)
    (hc : content t = FileView.avail data) (hlt : p < data.length) (hn : data.length < p + n) :
    ioReadFull content t p n =
      (data.length - p, some RErr.unexpectedEOF) := by
  have hav : data.length - p ≠ 0 := by omega
  have hno : ¬ (n ≤ data.length - p) := by omega
  simp [ioReadFull, hc, hav, hno]

theorem ioReadFull_static_enough (data : List Nat) (t p n : Nat)
    (h : p + n ≤ data.length) :
    ioReadFull (staticContent data) t p n = (n, none) :=
  ioReadFull_avail_enough (staticContent data) data t p n rfl h

theorem ioReadFull_static_empty (data : List Nat) (t p n : Nat)
    (hle : data.length ≤ p) (hn : 0 < n) :
    ioReadFull (staticContent data) t p n = (0, some RErr.eof) :=
  ioReadFull_avail_empty (staticContent data) data t p n rfl hle hn

theorem ioReadFull_static_short (data : List Nat) (t p n : Nat)
    (hlt : p < data.length) (hn : data.length < p + n) :
    ioReadFull (staticContent data) t p n =
      (data.length - p, some RErr.unexpectedEOF) :=
  ioReadFull_avail_short (staticContent data) data t p n rfl hlt hn

theorem readFull_static_success (data : List Nat) (bufLen : Nat) (w : Bool) (pos : Nat)
    (h : pos + bufLen ≤ data.length) :
    ReadFull (staticContent data) bufLen w pos = ⟨bufLen, none, 0⟩ := by
  unfold ReadFull
  rw [readFullAux]
  by_cases hb : 0 < bufLen
  · rw [if_pos hb]
    have hio : ioReadFull (staticContent data) 0 pos bufLen = (bufLen, none) := by
      have := ioReadFull_static_enough data 0 (pos + 0) (bufLen - 0) (by omega)
      simpa using this
    simp [hio]
  · have h0 : bufLen = 0 := by omega
    simp [h0]

theorem readFullAux_static_eof (data : List Nat) (bufLen : Nat) (w : Bool) (pos : Nat) :
    ∀ tl t br s, data.length ≤ pos + br → br < bufLen →
      readFullAux (staticContent data) bufLen w pos t br s tl =
        ⟨br, some RErr.eof, s + (if w then tl else 0)⟩ := by
  intro tl
  induction tl with
  | zero =>
      intro t br s hle hbr
      rw [readFullAux, if_pos hbr]
      have hio := ioReadFull_static_empty data t (pos + br) (bufLen - br) (by omega) (by omega)
      simp [hio]
  | succ tl ih =>
      intro t br s hle hbr
      rw [readFullAux, if_pos hbr]
      have hio := ioReadFull_static_empty data t (pos + br) (bufLen - br) (by omega) (by omega)
      cases w with
      | false =>
          simp [hio]
      | true =>
          simp only [hio]
          rw [dif_pos (by simp)]
          simp only [Nat.add_zero, Nat.succ_sub_one]
          rw [ih (t + 1) br (s + 1) hle hbr]
          simp only [if_true, RFResult.mk.injEq, true_and]
          omega


theorem readFull_static_insufficient_wait (data : List Nat) (bufLen pos : Nat)
    (hb : 0 < bufLen) (h : data.length < pos + bufLen) :
    ReadFull (staticContent data) bufLen true pos =
      ⟨data.length - pos, some RErr.eof, 600⟩ := by
  unfold ReadFull
  by_cases hpos : data.length ≤ pos
  · have := readFullAux_static_eof data bufLen true pos 600 0 0 0 (by omega) (by omega)
    rw [this]
    have h0 : data.length - pos = 0 := by omega
    simp [h0]
  · rw [readFullAux, if_pos hb]
    have hio : ioReadFull (staticContent data) 0 pos bufLen =
        (data.length - pos, some RErr.unexpectedEOF) := by
      have := ioReadFull_static_short data 0 (pos + 0) (bufLen - 0) (by omega) (by omega)
      simpa using this
    simp only [Nat.add_zero, Nat.sub_zero, hio]
    rw [dif_pos (by simp)]
    have := readFullAux_static_eof data bufLen true pos 599 1
      (0 + (data.length - pos)) 1 (by omega) (by omega)
    simpa using this

theorem readFull_static_insufficient_nowait (data : List Nat) (bufLen pos : Nat)
    (hb : 0 < bufLen) (h : data.length < pos + bufLen) :
    ReadFull (staticContent data) bufLen false pos =
      ⟨data.length - pos, some (if data.length ≤ pos then RErr.eof else RErr.unexpectedEOF), 0⟩ := by
  unfold ReadFull
  rw [readFullAux, if_pos hb]
  by_cases hpos : data.length ≤ pos
  · have hio := ioReadFull_static_empty data 0 (pos + 0) (bufLen - 0) (by omega) (by omega)
    simp only [hio]
    rw [dif_neg (by simp)]
    have h0 : data.length - pos = 0 := by omega
    simp [hpos, h0]
  · have hio := ioReadFull_static_short data 0 (pos + 0) (bufLen - 0) (by omega) (by omega)
    simp only [hio]
    rw [dif_neg (by simp)]
    simp [hpos]

theorem readFullAux_sleeps_le (content : ContentAt) (bufLen : Nat) (w : Bool) (pos : Nat) :
    ∀ tl t br s, (readFullAux content bufLen w pos t br s tl).sleeps ≤ s + tl := by
  intro tl
  induction tl with
  | zero =>
      intro t br s
      rw [readFullAux]
      by_cases hbr : br < bufLen
      · rw [if_pos hbr]
        rcases hio : ioReadFull content t (pos + br) (bufLen - br) with ⟨n, e⟩
        match e with
        | none => simp [hio]
        | some RErr.eof => simp [hio]
        | some RErr.unexpectedEOF => simp [hio]
        | some (RErr.other c) => simp [hio]
        | some (RErr.wrapped e) => simp [hio]
      · rw [if_neg hbr]
        simp
  | succ tl ih =>
      intro t br s
      rw [readFullAux]
      by_cases hbr : br < bufLen
      · rw [if_pos hbr]
        rcases hio : ioReadFull content t (pos + br) (bufLen - br) with ⟨n, e⟩
        match e with
        | none => simp [hio]
        | some RErr.eof =>
            simp only [hio]
            cases w with
            | false => simp
            | true =>
                rw [dif_pos (by simp)]
                have := ih (t + 1) (br + n) (s + 1)
                simp only [Nat.succ_sub_one]
                omega
        | some RErr.unexpectedEOF =>
            simp only [hio]
            cases w with
            | false => simp
            | true =>
                rw [dif_pos (by simp)]
                have := ih (t + 1) (br + n) (s + 1)
                simp only [Nat.succ_sub_one]
                omega
        | some (RErr.other c) => simp [hio]
        | some (RErr.wrapped e) => simp [hio]
      · rw [if_neg hbr]
        simp

theorem readFull_sleeps_le (content : ContentAt) (bufLen : Nat) (w : Bool) (pos : Nat) :
    (ReadFull content bufLen w pos).sleeps ≤ 600 :=
  readFullAux_sleeps_le content bufLen w pos 600 0 0 0

theorem readFullAux_nowait_sleeps (content : ContentAt) (bufLen pos : Nat)
    (tl t br s : Nat) :
    (readFullAux content bufLen false pos t br s tl).sleeps = s := by
  rw [readFullAux]
  by_cases hbr : br < bufLen
  · rw [if_pos hbr]
    rcases hio : ioReadFull content t (pos + br) (bufLen - br) with ⟨n, e⟩
    match e with
    | none => simp [hio]
    | some RErr.eof => simp [hio]
    | some RErr.unexpectedEOF => simp [hio]
    | some (RErr.other c) => simp [hio]
    | some (RErr.wrapped e) => simp [hio]
  · rw [if_neg hbr]

theorem readFull_nowait_no_sleep (content : ContentAt) (bufLen pos : Nat) :
    (ReadFull content bufLen false pos).sleeps = 0 :=
  readFullAux_nowait_sleeps content bufLen pos 600 0 0 0

theorem readFull_nowait_insufficient (content : ContentAt) (data : List Nat)
    (bufLen pos : Nat) (hc : content 0 = FileView.avail data)
    (hb : 0 < bufLen) (h : data.length < pos + bufLen) :
    ReadFull content bufLen false pos =
      ⟨data.length - pos,
        some (if data.length ≤ pos then RErr.eof else RErr.unexpectedEOF), 0⟩ := by
  unfold ReadFull
  rw [readFullAux, if_pos hb]
  by_cases hpos : data.length ≤ pos
  · have hio := ioReadFull_avail_empty content data 0 (pos + 0) (bufLen - 0) hc
      (by omega) (by omega)
    simp only [hio]
    rw [dif_neg (by simp)]
    have h0 : data.length - pos = 0 := by omega
    simp [hpos, h0]
  · have hio := ioReadFull_avail_short content data 0 (pos + 0) (bufLen - 0) hc
      (by omega) (by omega)
    simp only [hio]
    rw [dif_neg (by simp)]
    simp [hpos]

theorem readFullAux_broken (content : ContentAt) (bufLen : Nat) (w : Bool)
    (pos c tl t br s : Nat) (h0 : content t = FileView.broken c) (hb : br < bufLen) :
    readFullAux content bufLen w pos t br s tl =
      ⟨br, some (RErr.wrapped (RErr.other c)), s⟩ := by
  rw [readFullAux, if_pos hb]
  have hio : ioReadFull content t (pos + br) (bufLen - br) = (0, some (RErr.other c)) := by
    simp [ioReadFull, h0]
  simp [hio]

theorem readFull_broken (content : ContentAt) (bufLen : Nat) (w : Bool) (pos c : Nat)
    (h0 : content 0 = FileView.broken c) (hb : 0 < bufLen) :
    ReadFull content bufLen w pos = ⟨0, some (RErr.wrapped (RErr.other c)), 0⟩ :=
  readFullAux_broken content bufLen w pos c 600 0 0 0 h0 hb

/-- Outcome of GetNextRequest. `endOfStream` is the clean io.EOF return
(the leased UnmarshalledRequest is released before returning, as on every
non-ok path of the source); `fail` carries the returned error; `ok`
carries the payload view the caller receives (lease retained) and the
stream position after the frame. -/
inductive GNRes where
  | endOfStream
  | fail (e : RErr)
  | ok (payload : List Nat) (nextPos : Nat)
deriving DecidableEq

/-- Promotion performed by GetNextRequest when the payload read ends
early: a plain io.EOF is replaced by io.ErrUnexpectedEOF; anything else
is kept. -/
def promoteEOF : RErr → RErr
  | RErr.eof => RErr.unexpectedEOF
  | e => e

/-- GetNextRequest (lib/request/request.go) over a static archive stream:
read the 8-byte little-endian length prefix with ReadFull (returning clean
end-of-stream on io.EOF, or the raw error otherwise), grow the leased
buffer to the decoded length, read exactly that many payload bytes, and on
any error there release the buffer and return it wrapped, with io.EOF
first promoted to io.ErrUnexpectedEOF. -/
def GetNextRequest (data : List Nat) (pos : Nat) (w : Bool) : GNRes :=
  let r1 := ReadFull (staticContent data) 8 w pos
  match r1.rerr with
  | some RErr.eof => GNRes.endOfStream
  | some e => GNRes.fail e
  | none =>
      let fbLen := leDecode ((data.drop pos).take 8)
      let r2 := ReadFull (staticContent data) fbLen w (pos + 8)
      match r2.rerr with
      | none => GNRes.ok ((data.drop (pos + 8)).take fbLen) (pos + 8 + fbLen)
      | some e => GNRes.fail (RErr.wrapped (promoteEOF e))

/-- CreateRequest (lib/request, builder side): serialize the five fields
of a captured request into the structured record payload. -/
def CreateRequest (id method uri headers body : List Nat) : List Nat :=
  encodeRequest { rid := id, method := method, uri := uri, headers := headers, body := body }

/-- SaveRequest (lib/request/request.go), at the level of the bytes the
archive receives: write the 8-byte little-endian length of the payload,
then the payload itself, appended to what the archive already holds. -/
def SaveRequest (sink payload : List Nat) : List Nat :=
  sink ++ leBytes 8 payload.length ++ payload

theorem getNextRequest_frame (sink payload rest : List Nat) (w : Bool)
    (hp : payload.length < 2 ^ 64) :
    GetNextRequest (sink ++ (leBytes 8 payload.length ++ (payload ++ rest))) sink.length w
      = GNRes.ok payload (sink.length + 8 + payload.length) := by
  have hlb : (leBytes 8 payload.length).length = 8 := leBytes_length 8 payload.length
  have hslen : (sink ++ (leBytes 8 payload.length ++ (payload ++ rest))).length
      = sink.length + (8 + (payload.length + rest.length)) := by
    simp [hlb]
  have hd1 : (sink ++ (leBytes 8 payload.length ++ (payload ++ rest))).drop sink.length
      = leBytes 8 payload.length ++ (payload ++ rest) := List.drop_left sink _
  have hfb : leDecode (((sink ++ (leBytes 8 payload.length ++ (payload ++ rest))).drop
      sink.length).take 8) = payload.length := by
    rw [hd1, List.take_left' hlb, leDecode_leBytes8 _ hp]
  have hr1 : (ReadFull (staticContent
      (sink ++ (leBytes 8 payload.length ++ (payload ++ rest)))) 8 w sink.length).rerr
      = none := by
    rw [readFull_static_success _ _ _ _ (by rw [hslen]; omega)]
  have hd2 : (sink ++ (leBytes 8 payload.length ++ (payload ++ rest))).drop (sink.length + 8)
      = payload ++ rest := by
    have hre : sink ++ (leBytes 8 payload.length ++ (payload ++ rest))
        = (sink ++ leBytes 8 payload.length) ++ (payload ++ rest) := by
      simp [List.append_assoc]
    rw [hre, List.drop_left' (by simp [hlb])]
  have hr2 : (ReadFull (staticContent
      (sink ++ (leBytes 8 payload.length ++ (payload ++ rest)))) payload.length w
      (sink.length + 8)).rerr = none := by
    rw [readFull_static_success _ _ _ _ (by rw [hslen]; omega)]
  have hpay : ((sink ++ (leBytes 8 payload.length ++ (payload ++ rest))).drop
      (sink.length + 8)).take payload.length = payload := by
    rw [hd2, List.take_left]
  simp only [GetNextRequest, hfb, hr1, hr2, hpay]

/-- C1: a request captured via CreateRequest and written with SaveRequest
as a length-prefixed frame is read back intact by GetNextRequest from the
frame's position, and the Request() view over the payload yields id,
method, uri, raw headers and body byte-equal to the captured values. -/
theorem c1_roundtrip (r : FbrRequest) (sink rest : List Nat) (w : Bool)
    (h1 : r.rid.length < 2 ^ 64) (h2 : r.method.length < 2 ^ 64)
    (h3 : r.uri.length < 2 ^ 64) (h4 : r.headers.length < 2 ^ 64)
    (h5 : r.body.length < 2 ^ 64) (hp : (encodeRequest r).length < 2 ^ 64) :
    GetNextRequest
        (SaveRequest sink (CreateRequest r.rid r.method r.uri r.headers r.body) ++ rest)
        sink.length w
      = GNRes.ok (encodeRequest r) (sink.length + 8 + (encodeRequest r).length)
    ∧ decodeRequest (encodeRequest r) = some r := by
  have hassoc : SaveRequest sink (CreateRequest r.rid r.method r.uri r.headers r.body) ++ rest
      = sink ++ (leBytes 8 (encodeRequest r).length ++ (encodeRequest r ++ rest)) := by
    simp [SaveRequest, CreateRequest, List.append_assoc]
  rw [hassoc, getNextRequest_frame sink (encodeRequest r) rest w hp]
  exact ⟨rfl, decodeRequest_encodeRequest r h1 h2 h3 h4 h5⟩

/-- C1 witness: a concrete captured request round-trips byte-equal through
SaveRequest and GetNextRequest. -/
theorem c1_roundtrip_witness :
    GetNextRequest
        (SaveRequest [] (CreateRequest [97, 98, 99] [80, 79, 83, 84] [47, 120] [] [104, 105]) ++ [])
        (List.length ([] : List Nat)) false
      = GNRes.ok (encodeRequest ⟨[97, 98, 99], [80, 79, 83, 84], [47, 120], [], [104, 105]⟩)
          (List.length ([] : List Nat) + 8 +
            (encodeRequest ⟨[97, 98, 99], [80, 79, 83, 84], [47, 120], [], [104, 105]⟩).length)
    ∧ decodeRequest (encodeRequest ⟨[97, 98, 99], [80, 79, 83, 84], [47, 120], [], [104, 105]⟩)
      = some ⟨[97, 98, 99], [80, 79, 83, 84], [47, 120], [], [104, 105]⟩ :=
  c1_roundtrip ⟨[97, 98, 99], [80, 79, 83, 84], [47, 120], [], [104, 105]⟩ [] [] false
    (by decide) (by decide) (by decide) (by decide) (by decide) (by decide)

/-- C4: GetNextRequest reports clean end-of-stream exactly when a clean
end-of-input occurs while reading the 8-byte length prefix; an end-of-input
while reading the decoded number of payload bytes after a successful length
read is returned as a wrapped unexpected-end-of-input error, never as clean
end-of-stream. -/
theorem c4_eof_classification (data : List Nat) (pos : Nat) (w : Bool) :
    (data.length ≤ pos → GetNextRequest data pos w = GNRes.endOfStream)
    ∧ (pos + 8 ≤ data.length →
        data.length < pos + 8 + leDecode ((data.drop pos).take 8) →
        GetNextRequest data pos w = GNRes.fail (RErr.wrapped RErr.unexpectedEOF)
        ∧ GetNextRequest data pos w ≠ GNRes.endOfStream) := by
  constructor
  · intro hpos
    have h1 : (ReadFull (staticContent data) 8 w pos).rerr = some RErr.eof := by
      cases w with
      | true =>
          rw [readFull_static_insufficient_wait data 8 pos (by norm_num) (by omega)]
      | false =>
          rw [readFull_static_insufficient_nowait data 8 pos (by norm_num) (by omega)]
          simp [hpos]
    simp [GetNextRequest, h1]
  · intro h8 hL
    have h1 : (ReadFull (staticContent data) 8 w pos).rerr = none := by
      rw [readFull_static_success data 8 w pos (by omega)]
    have heq : GetNextRequest data pos w = GNRes.fail (RErr.wrapped RErr.unexpectedEOF) := by
      cases w with
      | true =>
          have h2 : (ReadFull (staticContent data)
              (leDecode ((data.drop pos).take 8)) true (pos + 8)).rerr = some RErr.eof := by
            rw [readFull_static_insufficient_wait data
              (leDecode ((data.drop pos).take 8)) (pos + 8) (by omega) (by omega)]
          simp [GetNextRequest, h1, h2, promoteEOF]
      | false =>
          have h2 : (ReadFull (staticContent data)
              (leDecode ((data.drop pos).take 8)) false (pos + 8)).rerr
              = some (if data.length ≤ pos + 8 then RErr.eof else RErr.unexpectedEOF) := by
            rw [readFull_static_insufficient_nowait data
              (leDecode ((data.drop pos).take 8)) (pos + 8) (by omega) (by omega)]
          by_cases hc : data.length ≤ pos + 8
          · simp [GetNextRequest, h1, h2, hc, promoteEOF]
          · simp [GetNextRequest, h1, h2, hc, promoteEOF]
    refine ⟨heq, ?_⟩
    rw [heq]
    simp

/-- C4 witness: a stream ending inside the payload of a frame yields the
wrapped corruption error, while an empty stream yields clean
end-of-stream. -/
theorem c4_eof_classification_witness :
    GetNextRequest [3, 0, 0, 0, 0, 0, 0, 0, 1] 0 false
        = GNRes.fail (RErr.wrapped RErr.unexpectedEOF)
    ∧ GetNextRequest ([] : List Nat) 0 false = GNRes.endOfStream :=
  ⟨((c4_eof_classification [3, 0, 0, 0, 0, 0, 0, 0, 1] 0 false).2
      (by decide) (by decide)).1,
    (c4_eof_classification [] 0 false).1 (by decide)⟩

/-- C8: ReadFull terminates for every input, performing at most 600
one-second retries. With waitForData false it sleeps never and returns the
end-of-input condition immediately (io.EOF on a clean end-of-input,
io.ErrUnexpectedEOF on a short read). With waitForData true over a stream
that stays short of the requested bytes it returns end-of-input after
exactly 600 one-second retries (about 600 seconds with no data). Any
other read error is returned immediately, wrapped, with no retry. -/
theorem c8_readfull_termination (content : ContentAt) (data : List Nat)
    (bufLen pos c : Nat) (w : Bool) :
    (ReadFull content bufLen w pos).sleeps ≤ 600
    ∧ (ReadFull content bufLen false pos).sleeps = 0
    ∧ (content 0 = FileView.avail data → data.length ≤ pos → 0 < bufLen →
        ReadFull content bufLen false pos = ⟨0, some RErr.eof, 0⟩)
    ∧ (content 0 = FileView.avail data → pos < data.length → data.length < pos + bufLen →
        ReadFull content bufLen false pos
          = ⟨data.length - pos, some RErr.unexpectedEOF, 0⟩)
    ∧ ((∀ t, content t = FileView.avail data) → data.length < pos + bufLen → 0 < bufLen →
        ReadFull content bufLen true pos = ⟨data.length - pos, some RErr.eof, 600⟩)
    ∧ (content 0 = FileView.broken c → 0 < bufLen →
        ReadFull content bufLen w pos = ⟨0, some (RErr.wrapped (RErr.other c)), 0⟩) := by
  refine ⟨readFull_sleeps_le content bufLen w pos,
    readFull_nowait_no_sleep content bufLen pos, ?_, ?_, ?_, ?_⟩
  · intro hc hpos hb
    rw [readFull_nowait_insufficient content data bufLen pos hc hb (by omega)]
    have h0 : data.length - pos = 0 := by omega
    simp [hpos, h0]
  · intro hc hlt hins
    rw [readFull_nowait_insufficient content data bufLen pos hc (by omega) hins]
    simp [Nat.not_le.mpr hlt]
  · intro hall hins hb
    have hcs : content = staticContent data := funext fun t => hall t
    rw [hcs]
    exact readFull_static_insufficient_wait data bufLen pos hb hins
  · intro hc hb
    exact readFull_broken content bufLen w pos c hc hb

/-- C8 witness: concrete instances of the tail-follow bounds — a static
three-byte file read with a five-byte buffer returns end-of-input with no
sleep when not waiting, and after exactly 600 sleeps when waiting; a broken
reader fails immediately, wrapped. -/
theorem c8_readfull_termination_witness :
    (ReadFull (staticContent [1, 2, 3]) 5 true 0).sleeps ≤ 600
    ∧ (ReadFull (staticContent [1, 2, 3]) 5 false 0).sleeps = 0
    ∧ ReadFull (staticContent [1, 2, 3]) 5 false 3 = ⟨0, some RErr.eof, 0⟩
    ∧ ReadFull (staticContent [1, 2, 3]) 5 false 0
        = ⟨3, some RErr.unexpectedEOF, 0⟩
    ∧ ReadFull (staticContent [1, 2, 3]) 5 true 0 = ⟨3, some RErr.eof, 600⟩
    ∧ ReadFull (fun _ => FileView.broken 7) 5 true 0
        = ⟨0, some (RErr.wrapped (RErr.other 7)), 0⟩ := by
  have hmain := c8_readfull_termination (staticContent [1, 2, 3]) [1, 2, 3] 5 0 7 true
  have hmain3 := c8_readfull_termination (staticContent [1, 2, 3]) [1, 2, 3] 5 3 7 true
  have hbrk := c8_readfull_termination (fun _ => FileView.broken 7) [1, 2, 3] 5 0 7 true
  refine ⟨hmain.1, hmain.2.1, ?_, ?_, ?_, ?_⟩
  · exact hmain3.2.2.1 rfl (by decide) (by decide)
  · exact hmain.2.2.2.1 rfl (by decide) (by decide)
  · exact hmain.2.2.2.2.1 (fun t => rfl) (by decide) (by decide)
  · exact hbrk.2.2.2.2.2 rfl (by decide)

/-- File names and paths as byte strings. -/
abbrev FName : Type := List Nat

/-- Errors on the archive side. `notOpenForWrite` is the guard error of
BasicArchive.Write, `ioFail` any underlying I/O error, `wrapped` a pass
through errors.Wrap. -/
inductive CErr where
  | notOpenForWrite
  | ioFail (code : Nat)
  | wrapped (e : CErr)
deriving DecidableEq

/-- BasicArchive (lib/archive/common/common.go). Handles are modelled by
open/closed flags (`fpOpen` for the raw file pointer, `zwOpen` for the lz4
writer, `bwOpen` for the bufio writer, `brOpen`, `zrOpen` for the read
side); `fqfn` is the staging file name; `finalizer` models the backend
FinalizerFunc as a function of the staging name at close time (none for a
nil Finalizer); `finalizedFiles` is the finalized-files list. -/
structure BasicArchive where
  writing : Bool
  deleteOnClose : Bool
  fpOpen : Bool
  zwOpen : Bool
  bwOpen : Bool
  brOpen : Bool
  zrOpen : Bool
  fqfn : FName
  stageDir : FName
  pfx : FName
  extension : FName
  compress : Bool
  bufferSize : Nat
  bytesWritten : Nat
  finalizer : Option (FName → FName × Option CErr)
  finalizedFiles : List FName

/-- Where BasicArchive.Write delegates the buffer: the lz4 writer if set,
else the bufio writer if set, else the raw file pointer — which may be
nil (`nilFile`) when no handle is open. -/
inductive WTarget where
  | compressor
  | buffer
  | rawFile
  | nilFile
deriving DecidableEq

/-- Outcome of BasicArchive.Write: either rejected by the open-for-write
guard, or delegated downstream with the downstream result passed back. -/
inductive WriteRes where
  | rejected (e : CErr)
  | delegated (target : WTarget) (e : Option CErr)
deriving DecidableEq

/-- BasicArchive.Write (common.go): reject if not open for write;
otherwise add the input length to bytesWritten first (the counter is kept
even if the downstream write fails) and delegate to the lz4 writer, the
bufio writer, or the raw file pointer, in that order. `downstream` is the
result the delegated writer would return. -/
def writeArchive (rf : BasicArchive) (bufLen : Nat) (downstream : Option CErr) :
    BasicArchive × WriteRes :=
  if rf.writing = false then (rf, WriteRes.rejected CErr.notOpenForWrite)
  else
    let rf1 := { rf with bytesWritten := rf.bytesWritten + bufLen }
    if rf.zwOpen then (rf1, WriteRes.delegated WTarget.compressor downstream)
    else if rf.bwOpen then (rf1, WriteRes.delegated WTarget.buffer downstream)
    else if rf.fpOpen then (rf1, WriteRes.delegated WTarget.rawFile downstream)
    else (rf1, WriteRes.delegated WTarget.nilFile downstream)

/-- I/O outcomes of the close-time sub-operations, supplied by the
environment: result of lz4 writer Close, bufio writer Flush, file Close
and os.Remove. -/
structure CloseEnv where
  zwCloseErr : Option CErr
  bwFlushErr : Option CErr
  fpCloseErr : Option CErr
  removeErr : Option CErr
deriving DecidableEq

/-- Result of BasicArchive.Close: the post state, the returned error, the
staging file unlinked by os.Remove (if any), whether the backend finalizer
was invoked, and what it returned. -/
structure CloseOut where
  st : BasicArchive
  cerr : Option CErr
  removedFile : Option FName
  finalizerInvoked : Bool
  finalizerOutput : Option (FName × Option CErr)

/-- BasicArchive.Close (common.go 186-231): close the lz4 writer, flush
the bufio writer, returning early on error; close the file and clear the
handles; if (writing and bytesWritten == 0) or (reading and
deleteOnClose), unlink the staging file and return; else if writing with a
non-nil finalizer, invoke it, appending the reported name to
finalizedFiles only when the finalizer returned an error and a non-empty
name (the source condition is `err != nil && finalName != ""`). -/
def closeArchive (rf : BasicArchive) (env : CloseEnv) : CloseOut :=
  let e1 : Option CErr := if rf.zwOpen then env.zwCloseErr else none
  let e2 : Option CErr :=
    match e1 with
    | none => if rf.bwOpen then env.bwFlushErr else none
    | some e => some e
  match e2 with
  | some e => ⟨{ rf with zwOpen := false }, some e, none, false, none⟩
  | none =>
    let e3 : Option CErr := if rf.fpOpen then env.fpCloseErr else none
    let rf2 := { rf with zwOpen := false, zrOpen := false, fpOpen := false,
                         bwOpen := false, brOpen := false }
    if (rf2.writing = true ∧ rf2.bytesWritten = 0)
        ∨ (rf2.writing = false ∧ rf2.deleteOnClose = true) then
      ⟨rf2, env.removeErr, some rf2.fqfn, false, none⟩
    else
      match rf2.writing, rf2.finalizer with
      | true, some f =>
          let out := f rf2.fqfn
          let rf3 := if out.2 ≠ none ∧ out.1 ≠ [] then
              { rf2 with finalizedFiles := rf2.finalizedFiles ++ [out.1] }
            else rf2
          ⟨rf3, out.2, none, true, some out⟩
      | _, _ => ⟨rf2, e3, none, false, none⟩

/-- Result of BasicArchive.Rotate: the post state, the returned error, and
the Close effects of the outgoing staging file when one was open. -/
structure RotateOut where
  st : BasicArchive
  rerr : Option CErr
  closed : Option CloseOut

/-- Handle setup performed by Rotate after creating the new staging file:
raw file pointer, bufio writer only for a positive buffer size, lz4 writer
only when compression is on. The source does not reset bytesWritten here. -/
def openNewStaging (rf : BasicArchive) (newName : FName) : BasicArchive :=
  { rf with fpOpen := true, fqfn := newName,
            bwOpen := 0 < rf.bufferSize,
            zwOpen := rf.compress }

/-- BasicArchive.Rotate (common.go 246-297): reject on a read-open
archive; Close any currently open staging file (returning the wrapped
error on failure), then create the fresh staging file `newName` and
install the writer chain. -/
def rotateArchive (rf : BasicArchive) (env : CloseEnv) (newName : FName) : RotateOut :=
  if rf.writing = false then ⟨rf, some CErr.notOpenForWrite, none⟩
  else if rf.fpOpen then
    let c := closeArchive rf env
    match c.cerr with
    | some e => ⟨c.st, some (CErr.wrapped e), some c⟩
    | none => ⟨openNewStaging c.st newName, none, some c⟩
  else ⟨openNewStaging rf newName, none, none⟩

/-- Bytes of the staging suffix ".tmp". -/
def tmpSuffix : FName := [46, 116, 109, 112]

/-- strings.TrimSuffix(path, ".tmp"): drop the suffix when present. -/
def trimTmp (s : FName) : FName :=
  if 4 ≤ s.length ∧ s.drop (s.length - 4) = tmpSuffix then s.take (s.length - 4) else s

/-- path.Base for the staging paths used here: the bytes after the last
slash. -/
def baseName (s : FName) : FName :=
  s.foldl (fun acc b => if b = 47 then [] else acc ++ [b]) []

/-- finalizeArchive of the local file backend (lib/archive/file/archive.go
71-104), on the success path of stat, rename and chmod: the staging file
is renamed to its path without the ".tmp" suffix and the base name of the
final path is returned with a nil error. -/
def fileFinalize (filePath : FName) : FName × Option CErr :=
  (baseName (trimTmp filePath), none)

/-- Close environment in which every close-time I/O sub-operation
succeeds. -/
def benignEnv : CloseEnv := ⟨none, none, none, none⟩

/-- C9: BasicArchive.Write rejects writes on an archive not open for
write, leaving the state (hence bytesWritten) unchanged; on a write-open
archive it adds the input length to bytesWritten before delegating, so the
counter grows by len(buf) whatever the delegated write returns. -/
theorem c9_write_counter (rf : BasicArchive) (n : Nat) (e : Option CErr) :
    (rf.writing = false →
      writeArchive rf n e = (rf, WriteRes.rejected CErr.notOpenForWrite))
    ∧ (rf.writing = true →
      (writeArchive rf n e).1.bytesWritten = rf.bytesWritten + n
      ∧ ∃ tgt, (writeArchive rf n e).2 = WriteRes.delegated tgt e) := by
  constructor
  · intro hw
    simp [writeArchive, hw]
  · intro hw
    by_cases hz : rf.zwOpen
    · exact ⟨by simp [writeArchive, hw, hz], WTarget.compressor, by simp [writeArchive, hw, hz]⟩
    · by_cases hb : rf.bwOpen
      · exact ⟨by simp [writeArchive, hw, hz, hb],
          WTarget.buffer, by simp [writeArchive, hw, hz, hb]⟩
      · by_cases hf : rf.fpOpen
        · exact ⟨by simp [writeArchive, hw, hz, hb, hf],
            WTarget.rawFile, by simp [writeArchive, hw, hz, hb, hf]⟩
        · exact ⟨by simp [writeArchive, hw, hz, hb, hf],
            WTarget.nilFile, by simp [writeArchive, hw, hz, hb, hf]⟩

/-- Fresh write-mode archive of the local file backend with no buffering
or compression, staging file "a.tmp". -/
def sampleArch : BasicArchive :=
  { writing := true, deleteOnClose := false, fpOpen := true, zwOpen := false,
    bwOpen := false, brOpen := false, zrOpen := false,
    fqfn := [97] ++ tmpSuffix, stageDir := [], pfx := [114],
    extension := [102, 98, 102], compress := false, bufferSize := 0,
    bytesWritten := 0, finalizer := some fileFinalize, finalizedFiles := [] }

/-- The same archive opened for read (writing = false). -/
def sampleReadArch : BasicArchive := { sampleArch with writing := false }

/-- C9 witness: at the concrete archives, the read-open write is rejected
with the state unchanged, and the write-open write bumps bytesWritten by
the buffer length while delegating the downstream error unchanged. -/
theorem c9_write_counter_witness :
    writeArchive sampleReadArch 5 (some (CErr.ioFail 3))
      = (sampleReadArch, WriteRes.rejected CErr.notOpenForWrite)
    ∧ ((writeArchive sampleArch 5 (some (CErr.ioFail 3))).1.bytesWritten
        = sampleArch.bytesWritten + 5
      ∧ ∃ tgt, (writeArchive sampleArch 5 (some (CErr.ioFail 3))).2
          = WriteRes.delegated tgt (some (CErr.ioFail 3))) :=
  ⟨(c9_write_counter sampleReadArch 5 (some (CErr.ioFail 3))).1 rfl,
    (c9_write_counter sampleArch 5 (some (CErr.ioFail 3))).2 rfl⟩

/-- C3: on a write-mode archive with bytesWritten = 0, Close unlinks the
staging file, does not invoke the finalizer, leaves the finalized-files
list unchanged, and returns without error. -/
theorem c3_empty_close (rf : BasicArchive) (env : CloseEnv)
    (hw : rf.writing = true) (hz : rf.bytesWritten = 0)
    (he1 : env.zwCloseErr = none) (he2 : env.bwFlushErr = none)
    (her : env.removeErr = none) :
    (closeArchive rf env).removedFile = some rf.fqfn
    ∧ (closeArchive rf env).finalizerInvoked = false
    ∧ (closeArchive rf env).st.finalizedFiles = rf.finalizedFiles
    ∧ (closeArchive rf env).cerr = none := by
  unfold closeArchive
  simp [hw, hz, he1, he2, her, ite_self]

/-- C3 witness: closing the fresh archive with no bytes written unlinks
the staging file "a.tmp", skips the finalizer and leaves finalizedFiles
unchanged. -/
theorem c3_empty_close_witness :
    (closeArchive sampleArch benignEnv).removedFile = some sampleArch.fqfn
    ∧ (closeArchive sampleArch benignEnv).finalizerInvoked = false
    ∧ (closeArchive sampleArch benignEnv).st.finalizedFiles = sampleArch.finalizedFiles
    ∧ (closeArchive sampleArch benignEnv).cerr = none :=
  c3_empty_close sampleArch benignEnv rfl rfl rfl rfl rfl

/-- Finalizer that succeeds, reporting final name "fin" with a nil
error. -/
def okFinalizer : FName → FName × Option CErr := fun _ => ([102, 105, 110], none)

/-- Write-mode archive with 5 bytes written and a finalizer installed. -/
def c2Arch : BasicArchive := { sampleArch with bytesWritten := 5, finalizer := some okFinalizer }

/-- C2 (evaluated against the code): on a write-mode archive with
bytesWritten > 0 and a non-nil finalizer, Close does invoke the finalizer;
the finalizer succeeds with final name "fin" and a nil error, yet the
finalized-files list stays unchanged, because the source appends only when
the finalizer returned an error together with a non-empty name
(`err != nil && finalName != ""`). -/
theorem c2_success_name_not_appended :
    (closeArchive c2Arch benignEnv).finalizerInvoked = true
    ∧ (closeArchive c2Arch benignEnv).finalizerOutput = some ([102, 105, 110], none)
    ∧ (closeArchive c2Arch benignEnv).st.finalizedFiles = []
    ∧ (closeArchive c2Arch benignEnv).cerr = none :=
  ⟨rfl, rfl, rfl, rfl⟩

/-- Staging name "b.tmp" for the second staging file. -/
def nameB : FName := [98] ++ tmpSuffix

/-- Staging name "c.tmp" for the third staging file. -/
def nameC : FName := [99] ++ tmpSuffix

/-- The sample archive after writing 5 bytes to the first staging file. -/
def c7AfterWrite : BasicArchive := (writeArchive sampleArch 5 none).1

/-- First rotation: closes and finalizes staging file "a.tmp", opens
"b.tmp". -/
def c7Rot1 : RotateOut := rotateArchive c7AfterWrite benignEnv nameB

/-- Second rotation, with no Write in between: closes "b.tmp". -/
def c7Rot2 : RotateOut := rotateArchive c7Rot1.st benignEnv nameC

/-- C7 (evaluated against the code): writes before the first Rotate, none
between the two Rotates. The first rotation finalizes "a.tmp" to "a". The
second rotation ALSO invokes the finalizer — renaming the empty staging
file "b.tmp" to "b" instead of deleting it — because bytesWritten (still 5)
is never reset on rotation, so two finalized artifacts are produced. -/
theorem c7_second_rotate_finalizes_empty :
    c7Rot1.closed.map CloseOut.finalizerInvoked = some true
    ∧ c7Rot1.closed.map CloseOut.finalizerOutput = some (some ([97], none))
    ∧ c7Rot2.closed.map CloseOut.finalizerInvoked = some true
    ∧ c7Rot2.closed.map CloseOut.finalizerOutput = some (some ([98], none))
    ∧ c7Rot2.closed.map CloseOut.removedFile = some none
    ∧ c7Rot2.st.bytesWritten = 5 :=
  ⟨rfl, rfl, rfl, rfl, rfl, rfl⟩

/-- C10: after Close on a write-mode archive the writing flag is still
true while the file, buffer and compressor handles are nil; a subsequent
Write is therefore not rejected by the open-for-write guard, still bumps
bytesWritten, and its delegation reaches the nil file pointer. -/
theorem c10_write_after_close (rf : BasicArchive) (env : CloseEnv) (n : Nat)
    (e : Option CErr) (hw : rf.writing = true)
    (he1 : env.zwCloseErr = none) (he2 : env.bwFlushErr = none) :
    ((closeArchive rf env).st.writing = true
      ∧ (closeArchive rf env).st.fpOpen = false
      ∧ (closeArchive rf env).st.zwOpen = false
      ∧ (closeArchive rf env).st.bwOpen = false)
    ∧ (writeArchive (closeArchive rf env).st n e).2
        ≠ WriteRes.rejected CErr.notOpenForWrite
    ∧ (writeArchive (closeArchive rf env).st n e).2
        = WriteRes.delegated WTarget.nilFile e
    ∧ (writeArchive (closeArchive rf env).st n e).1.bytesWritten
        = (closeArchive rf env).st.bytesWritten + n := by
  have hst : (closeArchive rf env).st.writing = true
      ∧ (closeArchive rf env).st.fpOpen = false
      ∧ (closeArchive rf env).st.zwOpen = false
      ∧ (closeArchive rf env).st.bwOpen = false := by
    unfold closeArchive
    simp only [he1, he2, ite_self]
    by_cases hbz : rf.bytesWritten = 0
    · simp [hw, hbz]
    · simp only [hw, hbz]
      rcases hfin : rf.finalizer with _ | f
      · simp [hfin]
      · simp only [hfin]
        by_cases happ : ¬(f rf.fqfn).2 = none ∧ ¬(f rf.fqfn).1 = []
        · simp [happ]
        · simp [happ]
  obtain ⟨hsw, hsf, hsz, hsb⟩ := hst
  refine ⟨⟨hsw, hsf, hsz, hsb⟩, ?_, ?_, ?_⟩
  · simp [writeArchive, hsw, hsf, hsz, hsb]
  · simp [writeArchive, hsw, hsf, hsz, hsb]
  · simp [writeArchive, hsw, hsf, hsz, hsb]

/-- C10 witness: at the concrete archive with 5 bytes written, closing and
then writing again is not rejected; the write reaches the nil file pointer
and still bumps the counter. -/
theorem c10_write_after_close_witness :
    ((closeArchive c2Arch benignEnv).st.writing = true
      ∧ (closeArchive c2Arch benignEnv).st.fpOpen = false
      ∧ (closeArchive c2Arch benignEnv).st.zwOpen = false
      ∧ (closeArchive c2Arch benignEnv).st.bwOpen = false)
    ∧ (writeArchive (closeArchive c2Arch benignEnv).st 4 none).2
        ≠ WriteRes.rejected CErr.notOpenForWrite
    ∧ (writeArchive (closeArchive c2Arch benignEnv).st 4 none).2
        = WriteRes.delegated WTarget.nilFile none
    ∧ (writeArchive (closeArchive c2Arch benignEnv).st 4 none).1.bytesWritten
        = (closeArchive c2Arch benignEnv).st.bytesWritten + 4 :=
  c10_write_after_close c2Arch benignEnv 4 none rfl rfl rfl

/-- What the replay target does for one outbound request: a transport
error from fasthttp.Do, or a response with the given status code. -/
inductive HTTPOutcome where
  | transportFail (code : Nat)
  | status (code : Nat)
deriving DecidableEq

/-- errors.Wrap of github.com/pkg/errors, per its documented contract:
wrapping a nil error returns nil; otherwise the error gains a wrapping
layer. -/
def errorsWrap : Option RErr → Option RErr
  | none => none
  | some e => some (RErr.wrapped e)

/-- replayRequest (lib/sender, non-dry-run path after successful header
assembly): a transport error from fasthttp.Do is wrapped and returned;
otherwise, when resp.StatusCode() differs from http.StatusOK the source
returns errors.Wrap(err, "Proxy request errored") — but err is nil at
that point — and on a 200 it returns nil. -/
def replayRequest (outcome : HTTPOutcome) : Option RErr :=
  match outcome with
  | HTTPOutcome.transportFail c => some (RErr.wrapped (RErr.other c))
  | HTTPOutcome.status c => if c ≠ 200 then errorsWrap none else none

/-- One frame as the replay worker sees it: the frame id and what the
target would answer if the frame is replayed. -/
structure ReplayFrame where
  fid : List Nat
  outcome : HTTPOutcome
deriving DecidableEq

/-- processAndRelease (lib/sender): curReqID is initialized to the empty
string and never reassigned in the source; when the id filter is empty or
the frame id is byte-equal to it, the frame is replayed (a replay error is
wrapped); otherwise the frame is skipped. Returns (curReqID, err). -/
def processAndRelease (reqID : List Nat) (fr : ReplayFrame) : List Nat × Option RErr :=
  let curReqID : List Nat := []
  if reqID = [] ∨ fr.fid = reqID then
    match replayRequest fr.outcome with
    | some e => (curReqID, some (RErr.wrapped e))
    | none => (curReqID, none)
  else (curReqID, none)

/-- Observable outcome of one worker Run: outbound requests issued,
frames consumed from the channel, and sends into the error/exit
channel. -/
structure RunOut where
  issued : Nat
  consumed : Nat
  exitSignals : Nat
deriving DecidableEq

/-- Run (lib/sender worker loop) over the frames this worker receives,
min-delay pacing elided (it only sleeps). Each frame goes through
processAndRelease; `issued` counts frames on which the filter matched (an
outbound request is made for each). On error the worker signals exit and
breaks when exitOnFirstError is set, else continues; after a successful
frame the source signals exit and breaks when the filter is non-empty and
curReqID equals it. -/
def runWorker (reqID : List Nat) (exitOnFirstError : Bool) : List ReplayFrame → RunOut
  | [] => ⟨0, 0, 0⟩
  | fr :: rest =>
      let pr := processAndRelease reqID fr
      let issuedHere : Nat := if reqID = [] ∨ fr.fid = reqID then 1 else 0
      match pr.2 with
      | some _ =>
          if exitOnFirstError then ⟨issuedHere, 1, 1⟩
          else
            let rec1 := runWorker reqID exitOnFirstError rest
            ⟨issuedHere + rec1.issued, 1 + rec1.consumed, rec1.exitSignals⟩
      | none =>
          if ¬ reqID = [] ∧ pr.1 = reqID then ⟨issuedHere, 1, 1⟩
          else
            let rec1 := runWorker reqID exitOnFirstError rest
            ⟨issuedHere + rec1.issued, 1 + rec1.consumed, rec1.exitSignals⟩

/-- C6 (evaluated against the code): replayRequest returns nil even for a
500 response — the source wraps a nil error at the non-OK-status check and
errors.Wrap(nil, msg) is nil — while a transport error is wrapped and
returned, and a 200 response returns nil. -/
theorem c6_non2xx_returns_nil :
    replayRequest (HTTPOutcome.status 500) = none
    ∧ replayRequest (HTTPOutcome.status 200) = none
    ∧ replayRequest (HTTPOutcome.transportFail 7)
        = some (RErr.wrapped (RErr.other 7)) :=
  ⟨rfl, rfl, rfl⟩

/-- C5 (evaluated against the code): with id filter "abc" and two frames
whose ids are both "abc" (target answering 200), the worker issues TWO
outbound requests, consumes both frames, and never signals exit:
processAndRelease never stores the frame id into curReqID, so the
exit-after-match check in Run cannot fire. -/
theorem c5_filter_never_exits :
    runWorker [97, 98, 99] false
        [⟨[97, 98, 99], HTTPOutcome.status 200⟩, ⟨[97, 98, 99], HTTPOutcome.status 200⟩]
      = ⟨2, 2, 0⟩ := by
  decide

end Blackhole
